import Mathlib

/-!
Verification development for the dedalus example repository
(`src/examples/lbvp_2d_poisson/poisson.py` and
`src/examples/ivp_ball_internally_heated_convection/internally_heated_conv.py`).

The repository's visible code consists of two driver scripts that configure a
spectral PDE engine (bases, fields, problems, solvers). Script-level logic
(restart flag, hermitian-symmetry cadence, buoyancy-vector initialization,
equation conditions, CFL parameters, main loop) is embedded directly from the
scripts. Engine behaviour that the scripts invoke but whose code is not in the
repository (assembly mode-coverage checking, the CFL controller, spectral
transforms, the SBDF2 time stepper, the LBVP solve) is modelled from the
repository's specification, with each such definition marked
`Modelled from the spec:` in its doc comment. Machine reals are embedded as
exact rationals.
-/

namespace Spec2Proof

/-! ### Restart-mode logic (internally_heated_conv.py, lines 38-48, 110-119) -/

/-- Embeds lines 38-40 of the convection script: `restart = True` exactly when
`len(sys.argv) > 1 and sys.argv[1] == '--restart'`. The list models Python's
`sys.argv`, whose element 0 is the script name. -/
def restartFlag : List String → Bool
  | _ :: a1 :: _ => a1 == "--restart"
  | _ => false

/-- Embeds lines 45-48: `t_end = 10.01` without restart, `t_end = 20` with. -/
def tEnd (restart : Bool) : ℚ := if restart then 20 else 1001 / 100

/-- Embeds line 116: in non-restart mode the initial time step is `dt = 0.05`. -/
def dtInitNoRestart : ℚ := 1 / 20

/-- Embeds line 111: the per-rank random seed is `seed = 42 + rank`. -/
def seedOf (rank : ℕ) : ℕ := 42 + rank

/-- Modelled from the spec: the scripts draw uniform variates in `[0, 1)` from a
seeded pseudo-random generator (`np.random.RandomState(seed).rand`, an external
collaborator whose code is not in the repository). We model it as a linear
congruential generator producing one residue modulo `2^31` per draw. -/
def lcgNext (x : ℕ) : ℕ := (1103515245 * x + 12345) % 2 ^ 31

/-- Modelled from the spec: the `i`-th uniform variate in `[0, 1)` of the
generator seeded with `seed`, namely the `(i+1)`-fold iterate of `lcgNext`
scaled into the unit interval. -/
def randUnit (seed i : ℕ) : ℚ := ((lcgNext^[i + 1] seed : ℕ) : ℚ) / (2 ^ 31 : ℚ)

/-- Embeds lines 113-114: `T['g'] = 1 - r**2` then `T['g'] += 0.5 * rand(...)`,
at grid position `i` on rank `rank`, with `rgrid` the radius values of the
local grid. -/
def initialTemp (rank : ℕ) (rgrid : ℕ → ℚ) (i : ℕ) : ℚ :=
  1 - rgrid i ^ 2 + (1 / 2) * randUnit (seedOf rank) i

/-! ### Hermitian-symmetry cadence (internally_heated_conv.py, lines 139, 148-151) -/

/-- Embeds line 139: `hermitian_cadence = 100`. -/
def hermitianCadence : ℕ := 100

/-- Embeds line 149: after a step leaves the iteration counter at `iteration`,
conjugate symmetry is forced on the state fields exactly when
`solver.iteration % hermitian_cadence in [0, 1]`. -/
def hermitianImposed (iteration : ℕ) : Bool :=
  iteration % hermitianCadence == 0 || iteration % hermitianCadence == 1

/-! ### Buoyancy vector field (internally_heated_conv.py, lines 70-71, 96) -/

/-- Modelled from the spec: a freshly allocated vector Field owns a zeroed data
buffer (Field allocation is engine code not under `src/`; the spec's Field
component stores a tensor-valued quantity whose buffer the Field owns, and the
script writes only component 2). Components are indexed `0 = phi`,
`1 = theta`, `2 = r`; `P` indexes grid positions. -/
def zeroVectorField (P : Type) : Fin 3 → P → ℚ := fun _ _ => 0

/-- Pointwise update of one tensor component of a vector field, embedding the
assignment `r_vec['g'][2] = r` of line 71. -/
def setComponent {P : Type} (f : Fin 3 → P → ℚ) (i : Fin 3) (v : P → ℚ) :
    Fin 3 → P → ℚ :=
  fun j => if j = i then v else f j

/-- Embeds lines 70-71: `r_vec` starts as a zero vector field and has its
radial component (index 2) set to the radius grid values. No later statement
of the script writes to `r_vec`. -/
def rVecField (P : Type) (rgrid : P → ℚ) : Fin 3 → P → ℚ :=
  setComponent (zeroVectorField P) 2 rgrid

/-- Embeds the buoyancy term `r_vec*T` of the momentum equation (line 96):
componentwise product of the vector field with the scalar field. -/
def buoyancy {P : Type} (rv : Fin 3 → P → ℚ) (T : P → ℚ) : Fin 3 → P → ℚ :=
  fun i x => rv i x * T x

/-! ### Mode coverage by conditioned equations (internally_heated_conv.py,
lines 99-100) -/

/-- Condition attached to an equation, restricting which spectral indices
(`ntheta` values) it governs.  The script uses `condition="ntheta != 0"` on
line 99 and `condition="ntheta == 0"` on line 100; an equation without a
condition governs all indices. -/
inductive ModeCond where
  | condAll : ModeCond
  | condNthetaEq0 : ModeCond
  | condNthetaNe0 : ModeCond

/-- Whether a condition admits the spectral index `n` (the `ntheta` value). -/
def condMatches : ModeCond → ℕ → Bool
  | ModeCond.condAll, _ => true
  | ModeCond.condNthetaEq0, n => n == 0
  | ModeCond.condNthetaNe0, n => !(n == 0)

/-- The number of equations of a conditioned-equation slot that claim the
spectral index `n`. -/
def countClaiming (eqs : List ModeCond) (n : ℕ) : ℕ :=
  (eqs.filter (fun c => condMatches c n)).length

/-- Error raised by problem assembly. -/
inductive AssemblyError where
  | modeCoverage : AssemblyError

/-- Modelled from the spec: assembly checks that every spectral index in
`0, ..., nmodes - 1` is claimed by exactly one conditioned equation of the
slot; a gap or an overlap is a fatal `AssemblyError` (the check itself lives
in the engine's problem-assembly code, not under `src/`). -/
def coverageOk (eqs : List ModeCond) (nmodes : ℕ) : Bool :=
  (List.range nmodes).all (fun n => countClaiming eqs n == 1)

/-- Modelled from the spec: the assembly-time mode-coverage check, returning
`AssemblyError.modeCoverage` deterministically on any gap or overlap. -/
def assembleModeCoverage (eqs : List ModeCond) (nmodes : ℕ) :
    Except AssemblyError Unit :=
  if coverageOk eqs nmodes then Except.ok () else Except.error AssemblyError.modeCoverage

/-- Embeds lines 99-100 of the script: the boundary-condition slot holding
`rad(u(r=1)) = 0` with condition `ntheta != 0` and `p(r=1) = 0` with condition
`ntheta == 0`. -/
def gaugeSlotConds : List ModeCond := [ModeCond.condNthetaNe0, ModeCond.condNthetaEq0]

/-- Embeds line 43: `Ntheta = 64` spectral indices in the theta direction. -/
def nthetaModes : ℕ := 64

/-! ### CFL step-size controller (internally_heated_conv.py, lines 136-137,
143-145) -/

/-- Embeds line 136: the parameters handed to `flow_tools.CFL`. -/
structure CFLParams where
  safety : ℚ
  threshold : ℚ
  maxDt : ℚ

/-- The script's parameters: `safety=0.35, threshold=0.1, max_dt=0.05`. -/
def scriptCFL : CFLParams := ⟨7 / 20, 1 / 10, 1 / 20⟩

/-- Modelled from the spec: the Courant target `safety * min(grid_spacing /
|velocity|)` computed by the CFL controller (`flow_tools.CFL`, engine code not
under `src/`); `minSpacingOverSpeed` is the grid minimum of
`grid_spacing / |velocity|` at the current state. -/
def cflTarget (p : CFLParams) (minSpacingOverSpeed : ℚ) : ℚ :=
  p.safety * minSpacingOverSpeed

/-- Modelled from the spec: one `CFL.compute_timestep()` query. The Courant
target is computed, changes smaller than the `threshold` fraction of the
previous step are ignored (hysteresis), and the hard `max_dt` cap is
applied. -/
def computeTimestep (p : CFLParams) (prevDt : ℚ) (minSpacingOverSpeed : ℚ) : ℚ :=
  min
    (if |cflTarget p minSpacingOverSpeed - prevDt| ≤ p.threshold * prevDt then prevDt
     else cflTarget p minSpacingOverSpeed)
    p.maxDt

/-- Embeds the main loop of lines 143-145: at loop pass `n` the controller is
queried once, before advancing, from the previous accepted step size;
`sp n` is the grid minimum of `grid_spacing / |velocity|` seen at pass `n`. -/
def dtUsed (p : CFLParams) (dt0 : ℚ) (sp : ℕ → ℚ) : ℕ → ℚ
  | 0 => computeTimestep p dt0 (sp 0)
  | n + 1 => computeTimestep p (dtUsed p dt0 sp n) (sp (n + 1))

/-- Simulation time after `n` passes of the main loop: each `solver.step(dt)`
advances it by exactly the `dt` queried at that pass. -/
def simTimeCFL (p : CFLParams) (dt0 : ℚ) (sp : ℕ → ℚ) : ℕ → ℚ
  | 0 => 0
  | n + 1 => simTimeCFL p dt0 sp n + dtUsed p dt0 sp n

/-! ### Main-loop progress and termination (internally_heated_conv.py,
lines 106-107, 143-145) -/

/-- Embeds line 107 with lines 45-46: `solver.stop_sim_time = t_end = 10.01`
in non-restart mode. -/
def stopSimTime : ℚ := 1001 / 100

/-- Modelled from the spec: simulation time after `n` calls of
`solver.step`, each advancing it by exactly the step size supplied
(`solver.step` is engine code not under `src/`); `dts n` is the step size of
call `n`. -/
def simTimeAfter (dts : ℕ → ℚ) : ℕ → ℚ
  | 0 => 0
  | n + 1 => simTimeAfter dts n + dts n

/-- Modelled from the spec: the iteration counter after `n` calls of
`solver.step`, each advancing it by exactly one. -/
def iterationAfter : ℕ → ℕ := fun n => n

/-- Modelled from the spec: the solver's boolean continue signal
(`solver.proceed`), re-evaluated each step as `sim_time < stop_sim_time`. -/
def proceedSignal (dts : ℕ → ℚ) (stop : ℚ) (n : ℕ) : Prop :=
  simTimeAfter dts n < stop

/-! ### Radial polynomial profiles and the SBDF2 step (internally_heated_conv.py,
lines 96-98, 110-116) -/

/-- Coefficientwise sum of two polynomials in `r`, coefficients listed from
degree 0 upward. -/
def polyAdd : List ℚ → List ℚ → List ℚ
  | [], q => q
  | p, [] => p
  | a :: p, b :: q => (a + b) :: polyAdd p q

/-- Scalar multiple of a polynomial. -/
def polySmul (k : ℚ) (p : List ℚ) : List ℚ := p.map (fun a => k * a)

/-- Product of two polynomials. -/
def polyMul : List ℚ → List ℚ → List ℚ
  | [], _ => []
  | a :: p, q => polyAdd (polySmul a q) (0 :: polyMul p q)

/-- Helper carrying the exponent while differentiating. -/
def polyDerivAux : ℕ → List ℚ → List ℚ
  | _, [] => []
  | k, a :: p => ((k : ℚ) * a) :: polyDerivAux (k + 1) p

/-- Derivative `d/dr` of a polynomial in `r`. -/
def polyDeriv (p : List ℚ) : List ℚ := (polyDerivAux 0 p).drop 1

/-- Evaluation of a polynomial at a point (Horner form). -/
def polyEval (p : List ℚ) (x : ℚ) : ℚ := p.foldr (fun a acc => a + x * acc) 0

/-- Coefficient `i` of a polynomial (0 beyond the listed length). -/
def polyCoeff (p : List ℚ) (i : ℕ) : ℚ := p.getD i 0

/-- Equality of polynomials as coefficient sequences, identifying lists that
differ only by trailing zeros. -/
def polyEquiv (p q : List ℚ) : Prop := ∀ i, polyCoeff p i = polyCoeff q i

/-- Division by `r` of a polynomial with no constant term; `none` when the
constant term is nonzero (the quotient would be singular at the origin). -/
def divR : List ℚ → Option (List ℚ)
  | [] => some []
  | a :: q => if a = 0 then some q else none

/-- Modelled from the spec: the spherically symmetric Laplacian
`p'' + (2/r) p'` on a radial profile regular at the origin (the ball basis
operators are engine code not under `src/`). -/
def lapRadial (p : List ℚ) : Option (List ℚ) :=
  (divR (polyDeriv p)).map (fun q => polyAdd (polyDeriv (polyDeriv p)) (polySmul 2 q))

/-- Embeds lines 52-55: `Rayleigh = 1e6`, `Prandtl = 1`, so
`P = sqrt(Rayleigh/Prandtl) = 1000` exactly. -/
def scriptP : ℚ := 1000

/-- Embeds line 72: `T_source = 6` (the internal heating `S`). -/
def tSource : ℚ := 6

/-- The implicit linear part of the temperature equation of line 98 on a
spherically symmetric profile: `(1/P) * lap(T)` (`none` when the profile is
singular at the origin). -/
def tempL (T : List ℚ) : Option (List ℚ) :=
  (lapRadial T).map (fun l => polySmul (1 / scriptP) l)

/-- The explicit right-hand side of the temperature equation of line 98 on a
spherically symmetric state: `-u.grad(T) + S/P` with radial velocity profile
`u`. -/
def tempF (u T : List ℚ) : List ℚ :=
  polyAdd (polySmul (-1) (polyMul u (polyDeriv T))) [tSource / scriptP]

/-- Modelled from the spec: the SBDF2 update relation of the timestepper
selected on line 49 (engine code not under `src/`), restricted to the
temperature equation on spherically symmetric states and multiplied through
by `2*dt`: `3 T_new - 4 T_n + T_old = 2 dt (L T_new + 2 F(T_n) - F(T_old))`,
where `L` is the implicit part and `F` the explicit part. -/
def sbdf2TempStep (dt : ℚ) (u : List ℚ) (Told Tn Tnew : List ℚ) : Prop :=
  ∃ l, tempL Tnew = some l ∧
    polyEquiv (polyAdd (polyAdd (polySmul 3 Tnew) (polySmul (-4) Tn)) Told)
      (polySmul (2 * dt)
        (polyAdd (polyAdd l (polySmul 2 (tempF u Tn))) (polySmul (-1) (tempF u Told))))

/-- Embeds lines 13 and 113: the conductive equilibrium
`T = S/6 * (1 - r^2) = 1 - r^2` (with `S = 6`), as a radial profile. -/
def conductiveEquilibrium : List ℚ := [tSource / 6, 0, -(tSource / 6)]

/-- The hydrostatic pressure profile balancing the buoyancy of the
equilibrium: `p(r) = r^2/2 - r^4/4 - 1/4`, which satisfies the gauge
`p(r=1) = 0` of line 100. -/
def equilibriumPressure : List ℚ := [-(1 / 4), 0, 1 / 2, 0, -(1 / 4)]

/-- Multiplication of a radial profile by `r` (the radial buoyancy factor
`r_vec` of line 96 acting on a spherically symmetric scalar). -/
def rMulPoly (p : List ℚ) : List ℚ := 0 :: p

/-! ### Per-mode tau system of the Poisson LBVP (poisson.py, lines 55-68) -/

/-- One Fourier mode's unknowns in the Poisson problem: the y-expansion
coefficients of `u` (modelled with a four-coefficient polynomial basis) and
the two tau unknowns of lines 41-42. -/
structure PoissonModeSol where
  u0 : ℚ
  u1 : ℚ
  u2 : ℚ
  u3 : ℚ
  tau1 : ℚ
  tau2 : ℚ

/-- Modelled from the spec: the square per-mode system assembled from lines
61-64 for the Fourier mode with wavenumber `k`, on a four-coefficient
polynomial y-basis with `Ly = 1`. Rows 1-4 project
`lap(u) + lift(tau1,-1) + lift(tau2,-2) = f` onto the y-coefficients (with
`dx(dx(u)) = -k^2 u` and the lifts landing in the last two coefficient
slots), row 5 is `u(y=0) = g`, row 6 is `dy(u)(y=Ly) = h`. -/
def poissonModeEqs (k : ℚ) (s : PoissonModeSol) (f0 f1 f2 f3 g h : ℚ) : Prop :=
  2 * s.u2 - k ^ 2 * s.u0 = f0 ∧
  6 * s.u3 - k ^ 2 * s.u1 = f1 ∧
  -(k ^ 2) * s.u2 + s.tau2 = f2 ∧
  -(k ^ 2) * s.u3 + s.tau1 = f3 ∧
  s.u0 = g ∧
  s.u1 + 2 * s.u2 + 3 * s.u3 = h

/-- The zero solution of a Poisson mode system. -/
def poissonZeroSol : PoissonModeSol := ⟨0, 0, 0, 0, 0, 0⟩

/-! ### Grid/coefficient transforms (spec section 4.1; exercised by
`require_grid_space` on lines 150-151 of the convection script) -/

/-- Values of `cos x` at the four uniform real-Fourier grid points
`x_j = 2*pi*j/4`, which are exact rationals. -/
def fourierCosVals : Fin 4 → ℚ := ![1, 0, -1, 0]

/-- Values of `sin x` at the four uniform grid points. -/
def fourierSinVals : Fin 4 → ℚ := ![0, 1, 0, -1]

/-- Values of `cos 2x` at the four uniform grid points. -/
def fourierCos2Vals : Fin 4 → ℚ := ![1, -1, 1, -1]

/-- Modelled from the spec: the coefficient-to-grid transform of a size-4 real
Fourier basis (the engine's transforms are not under `src/`): the modes
`1, cos x, sin x, cos 2x` with coefficients `c` are summed at each of the four
uniform grid points. -/
def fourierToGrid (c : Fin 4 → ℚ) : Fin 4 → ℚ :=
  fun j => c 0 + c 1 * fourierCosVals j + c 2 * fourierSinVals j + c 3 * fourierCos2Vals j

/-- Modelled from the spec: the grid-to-coefficient transform of the size-4
real Fourier basis, the discrete Fourier quadrature over the grid values. -/
def fourierToCoeff (v : Fin 4 → ℚ) : Fin 4 → ℚ :=
  ![(∑ j, v j) / 4,
    (∑ j, v j * fourierCosVals j) / 2,
    (∑ j, v j * fourierSinVals j) / 2,
    (∑ j, v j * fourierCos2Vals j) / 4]

/-! ### Polynomial-quadrature bases (spec section 4.1: the Chebyshev, Jacobi
and per-harmonic radial families, with non-uniform quadrature nodes, a
dealiased grid of `m >= n` points, and truncation to `n` retained modes) -/

/-- Bridge from executable coefficient lists into Mathlib polynomials, used
only to reason about the transforms: the polynomial with the listed
coefficients. -/
noncomputable def toP : List ℚ → Polynomial ℚ
  | [] => 0
  | a :: p => Polynomial.C a + Polynomial.X * toP p

/-- The linear factor `(x - y)⁻¹ * (X - y)` of a Lagrange cardinal function,
as an executable coefficient list. -/
def basisDivList (x y : ℚ) : List ℚ := polySmul (x - y)⁻¹ [-y, 1]

/-- The Lagrange cardinal polynomial of node `i`: the product of
`basisDivList (nodes i) (nodes j)` over all other nodes `j`. -/
def lagBasisList (m : ℕ) (nodes : Fin m → ℚ) (i : Fin m) : List ℚ :=
  (List.finRange m).foldr
    (fun j acc => if j = i then acc else polyMul (basisDivList (nodes i) (nodes j)) acc) [1]

/-- The polynomial matching the values `v` at the quadrature nodes, as an
executable coefficient list: the sum of the values times the cardinal
polynomials. -/
def interpPoly (m : ℕ) (nodes : Fin m → ℚ) (v : Fin m → ℚ) : List ℚ :=
  (List.finRange m).foldr
    (fun i acc => polyAdd (polySmul (v i) (lagBasisList m nodes i)) acc) []

/-- Modelled from the spec: the coefficient-to-grid (synthesis) transform of
a polynomial-type basis — Chebyshev, Jacobi, or the radial basis of one
spherical harmonic — with quadrature nodes `nodes`, non-uniform in general:
the expansion with coefficients `c` is evaluated at every one of the
`m = dealias * size` grid points (the engine's transforms are not under
`src/`). -/
def polyBasisToGrid (m : ℕ) (nodes : Fin m → ℚ) (c : List ℚ) : Fin m → ℚ :=
  fun j => polyEval c (nodes j)

/-- Modelled from the spec: the grid-to-coefficient (analysis) transform of a
polynomial-type basis with `n` modes on an `m`-point quadrature grid: the
unique polynomial of degree below `m` matching the grid values is formed and
its coefficient vector is truncated to the `n` retained modes. -/
def polyBasisToCoeff (n m : ℕ) (nodes : Fin m → ℚ) (v : Fin m → ℚ) : List ℚ :=
  (List.range n).map (fun i => polyCoeff (interpPoly m nodes v) i)

/-! ### Checkpoint loading (internally_heated_conv.py, line 118) -/

/-- Modelled from the spec: the state a checkpoint exposes to the solver
(spec section 6, the `serialize_state`/`deserialize_state` contract; the
storage format is opaque file I/O): the write number and the stored time
step. -/
structure Checkpoint where
  writeNum : ℕ
  dtStored : ℚ

/-- Modelled from the spec: `solver.load_state` of line 118 returns the
checkpoint's write number and stored `dt`:
`write, dt = solver.load_state('checkpoints/checkpoints_s11.h5')`. -/
def loadState (chk : Checkpoint) : ℕ × ℚ := (chk.writeNum, chk.dtStored)

/-- The configuration the script runs with after lines 38-48 and 106-119. -/
structure RunConfig where
  restart : Bool
  stopTime : ℚ
  dtStart : ℚ
  writeStart : Option ℕ

/-- Embeds lines 38-48 and 106-119: restart mode is decided by `restartFlag`;
the stop time is `tEnd` of the mode; in restart mode the write number and
`dt` are the ones loaded from the checkpoint, otherwise `dt` starts at 0.05
and no write number is loaded. -/
def scriptConfig (argv : List String) (chk : Checkpoint) : RunConfig :=
  if restartFlag argv then
    { restart := true, stopTime := tEnd true, dtStart := (loadState chk).2,
      writeStart := some (loadState chk).1 }
  else
    { restart := false, stopTime := tEnd false, dtStart := dtInitNoRestart,
      writeStart := none }

/-! ## Helper lemmas -/

/-- The bridge maps polynomial addition to addition. -/
lemma toP_polyAdd : ∀ p q : List ℚ, toP (polyAdd p q) = toP p + toP q := by
  intro p
  induction p with
  | nil =>
    intro q
    simp [polyAdd, toP]
  | cons a p ih =>
    intro q
    rcases q with _ | ⟨b, q⟩
    · simp [polyAdd, toP]
    · have h : polyAdd (a :: p) (b :: q) = (a + b) :: polyAdd p q := by
        simp [polyAdd]
      rw [h]
      simp only [toP, ih, map_add]
      ring

/-- The bridge maps scalar multiples to multiplication by a constant. -/
lemma toP_polySmul : ∀ (k : ℚ) (p : List ℚ), toP (polySmul k p) = Polynomial.C k * toP p := by
  intro k p
  induction p with
  | nil => simp [polySmul, toP]
  | cons a p ih =>
    have h : polySmul k (a :: p) = (k * a) :: polySmul k p := rfl
    rw [h]
    simp only [toP, ih, map_mul]
    ring

/-- The bridge maps polynomial products to products. -/
lemma toP_polyMul : ∀ p q : List ℚ, toP (polyMul p q) = toP p * toP q := by
  intro p
  induction p with
  | nil =>
    intro q
    show toP [] = toP [] * toP q
    simp [toP]
  | cons a p ih =>
    intro q
    show toP (polyAdd (polySmul a q) (0 :: polyMul p q)) = toP (a :: p) * toP q
    rw [toP_polyAdd, toP_polySmul]
    simp only [toP, ih, map_zero]
    ring

/-- The bridge preserves coefficients. -/
lemma toP_coeff : ∀ (p : List ℚ) (i : ℕ), (toP p).coeff i = polyCoeff p i := by
  intro p
  induction p with
  | nil =>
    intro i
    simp [toP, polyCoeff]
  | cons a p ih =>
    intro i
    rcases i with _ | j
    · simp [toP, polyCoeff, Polynomial.mul_coeff_zero]
    · simp [toP, polyCoeff, Polynomial.coeff_X_mul, ih j]

/-- The bridge preserves evaluation. -/
lemma toP_eval : ∀ (p : List ℚ) (x : ℚ), Polynomial.eval x (toP p) = polyEval p x := by
  intro p
  induction p with
  | nil =>
    intro x
    simp [toP, polyEval]
  | cons a p ih =>
    intro x
    simp [toP, polyEval, ih]

/-- A coefficient list denotes a polynomial of degree below its length. -/
lemma toP_degree_lt : ∀ p : List ℚ, (toP p).degree < (p.length : WithBot ℕ) := by
  intro p
  induction p with
  | nil =>
    show (0 : Polynomial ℚ).degree < ((0 : ℕ) : WithBot ℕ)
    rw [Polynomial.degree_zero]
    exact WithBot.bot_lt_coe 0
  | cons a p ih =>
    show (Polynomial.C a + Polynomial.X * toP p).degree < ((p.length + 1 : ℕ) : WithBot ℕ)
    apply lt_of_le_of_lt (Polynomial.degree_add_le _ _)
    rw [max_lt_iff]
    constructor
    · apply lt_of_le_of_lt Polynomial.degree_C_le
      exact_mod_cast Nat.succ_pos p.length
    · rw [Polynomial.degree_mul, Polynomial.degree_X]
      have hcast : ((p.length + 1 : ℕ) : WithBot ℕ) = 1 + (p.length : WithBot ℕ) := by
        push_cast
        rw [add_comm]
      rw [hcast]
      exact WithBot.add_lt_add_left (by simp) ih

/-- The executable linear factor denotes Mathlib's `basisDivisor`. -/
lemma toP_basisDivList (x y : ℚ) : toP (basisDivList x y) = Lagrange.basisDivisor x y := by
  rw [basisDivList, toP_polySmul]
  simp only [toP, Lagrange.basisDivisor, map_neg, map_one]
  ring

/-- Unrolling the cardinal-polynomial fold into a product over a list. -/
lemma toP_lagBasis_fold (m : ℕ) (nodes : Fin m → ℚ) (i : Fin m) :
    ∀ l : List (Fin m),
      toP (l.foldr
        (fun j acc => if j = i then acc else polyMul (basisDivList (nodes i) (nodes j)) acc)
        [1]) =
      (l.map fun j =>
        if j = i then (1 : Polynomial ℚ) else Lagrange.basisDivisor (nodes i) (nodes j)).prod := by
  intro l
  induction l with
  | nil => simp [toP]
  | cons j t ih =>
    by_cases hj : j = i
    · simp [hj, ih]
    · simp [hj, toP_polyMul, toP_basisDivList, ih]

/-- The executable cardinal polynomial denotes Mathlib's Lagrange basis
polynomial. -/
lemma toP_lagBasisList (m : ℕ) (nodes : Fin m → ℚ) (i : Fin m) :
    toP (lagBasisList m nodes i) = Lagrange.basis Finset.univ nodes i := by
  unfold lagBasisList
  rw [toP_lagBasis_fold, ← Fin.prod_univ_def, Lagrange.basis,
    ← Finset.mul_prod_erase Finset.univ _ (Finset.mem_univ i)]
  rw [if_pos rfl, one_mul]
  apply Finset.prod_congr rfl
  intro j hj
  rw [if_neg (Finset.mem_erase.mp hj).1]

/-- Unrolling the interpolation fold into a sum over a list. -/
lemma toP_interp_fold (m : ℕ) (nodes : Fin m → ℚ) (v : Fin m → ℚ) :
    ∀ l : List (Fin m),
      toP (l.foldr
        (fun i acc => polyAdd (polySmul (v i) (lagBasisList m nodes i)) acc) []) =
      (l.map fun i => Polynomial.C (v i) * Lagrange.basis Finset.univ nodes i).sum := by
  intro l
  induction l with
  | nil => simp [toP]
  | cons i t ih => simp [toP_polyAdd, toP_polySmul, toP_lagBasisList, ih]

/-- The executable interpolant denotes Mathlib's Lagrange interpolant over
all the quadrature nodes. -/
lemma toP_interpPoly (m : ℕ) (nodes : Fin m → ℚ) (v : Fin m → ℚ) :
    toP (interpPoly m nodes v) = Lagrange.interpolate Finset.univ nodes v := by
  unfold interpPoly
  rw [toP_interp_fold, ← Fin.sum_univ_def, Lagrange.interpolate_apply]

/-- Core of the round trip for every polynomial-quadrature basis: when the
nodes are distinct and at least as many as the retained modes, the
interpolant of the synthesized grid values has exactly the original
coefficients. -/
lemma interpPoly_round_trip (n m : ℕ) (nodes : Fin m → ℚ) (c : List ℚ)
    (hinj : Function.Injective nodes) (hnm : n ≤ m) (hc : c.length = n) :
    ∀ i, polyCoeff (interpPoly m nodes (polyBasisToGrid m nodes c)) i = polyCoeff c i := by
  have hIO : Set.InjOn nodes (Finset.univ : Finset (Fin m)) := hinj.injOn
  have hdeg : (toP c).degree < ((Finset.univ : Finset (Fin m)).card : WithBot ℕ) := by
    have h1 := toP_degree_lt c
    rw [hc] at h1
    have h2 : ((n : ℕ) : WithBot ℕ) ≤ ((m : ℕ) : WithBot ℕ) := by exact_mod_cast hnm
    have h3 : ((Finset.univ : Finset (Fin m)).card : WithBot ℕ) = ((m : ℕ) : WithBot ℕ) := by
      simp
    rw [h3]
    exact lt_of_lt_of_le h1 h2
  have hval : (fun i => Polynomial.eval (nodes i) (toP c)) = polyBasisToGrid m nodes c := by
    funext j
    rw [toP_eval]
    rfl
  have hint : toP (interpPoly m nodes (polyBasisToGrid m nodes c)) = toP c := by
    rw [toP_interpPoly, ← hval]
    exact (Lagrange.eq_interpolate hIO hdeg).symm
  intro i
  rw [← toP_coeff, ← toP_coeff, hint]

/-- Every accepted step size stays positive: the hysteresis branch keeps the
previous (positive) step, the other branch takes the positive Courant target,
and the cap is positive. -/
lemma computeTimestep_pos (p : CFLParams) (prev s : ℚ) (hsafe : 0 < p.safety)
    (hmax : 0 < p.maxDt) (hprev : 0 < prev) (hs : 0 < s) :
    0 < computeTimestep p prev s := by
  unfold computeTimestep
  have htarget : 0 < cflTarget p s := mul_pos hsafe hs
  by_cases h : |cflTarget p s - prev| ≤ p.threshold * prev
  · rw [if_pos h]
    exact lt_min hprev hmax
  · rw [if_neg h]
    exact lt_min htarget hmax

/-- The step size produced at every pass of the main loop is positive. -/
lemma dtUsed_pos (p : CFLParams) (dt0 : ℚ) (sp : ℕ → ℚ) (hsafe : 0 < p.safety)
    (hmax : 0 < p.maxDt) (hdt0 : 0 < dt0) (hsp : ∀ m, 0 < sp m) :
    ∀ n, 0 < dtUsed p dt0 sp n := by
  intro n
  induction n with
  | zero => exact computeTimestep_pos p dt0 (sp 0) hsafe hmax hdt0 (hsp 0)
  | succ m ih => exact computeTimestep_pos p _ (sp (m + 1)) hsafe hmax ih (hsp (m + 1))

/-- One CFL query undershoots the Courant target up to the hysteresis
threshold: `(1 - threshold) * dt <= target`. -/
lemma computeTimestep_cfl_bound (p : CFLParams) (prev s : ℚ) (hθ0 : 0 ≤ p.threshold)
    (hθ1 : p.threshold ≤ 1) (hmax : 0 ≤ p.maxDt) (_hprev : 0 < prev)
    (htarget : 0 ≤ cflTarget p s) :
    (1 - p.threshold) * computeTimestep p prev s ≤ cflTarget p s := by
  unfold computeTimestep
  by_cases h : |cflTarget p s - prev| ≤ p.threshold * prev
  · rw [if_pos h]
    have h1 : prev - cflTarget p s ≤ p.threshold * prev := by
      have := (abs_le.mp h).1
      linarith
    calc (1 - p.threshold) * min prev p.maxDt
        ≤ (1 - p.threshold) * prev :=
          mul_le_mul_of_nonneg_left (min_le_left _ _) (by linarith)
      _ = prev - p.threshold * prev := by ring
      _ ≤ cflTarget p s := by linarith
  · rw [if_neg h]
    have hm : 0 ≤ min (cflTarget p s) p.maxDt := le_min htarget hmax
    calc (1 - p.threshold) * min (cflTarget p s) p.maxDt
        ≤ 1 * min (cflTarget p s) p.maxDt :=
          mul_le_mul_of_nonneg_right (by linarith) hm
      _ = min (cflTarget p s) p.maxDt := one_mul _
      _ ≤ cflTarget p s := min_le_left _ _

/-- Closed form of the simulated time along the geometric (Zeno) step-size
sequence `dt_n = (1/2)^(n+1)`. -/
lemma simTimeAfter_zeno :
    ∀ N : ℕ, simTimeAfter (fun n => (1 / 2 : ℚ) ^ (n + 1)) N = 1 - (1 / 2 : ℚ) ^ N := by
  intro N
  induction N with
  | zero => simp [simTimeAfter]
  | succ n ih =>
    show simTimeAfter (fun n => (1 / 2 : ℚ) ^ (n + 1)) n + (1 / 2 : ℚ) ^ (n + 1) = _
    rw [ih]
    ring

/-- The LCG state is always below the modulus after at least one step. -/
lemma lcgNext_lt (x : ℕ) : lcgNext x < 2 ^ 31 :=
  Nat.mod_lt _ (by norm_num)

/-- Every modelled uniform variate lies in `[0, 1)`. -/
lemma randUnit_mem (seed i : ℕ) : 0 ≤ randUnit seed i ∧ randUnit seed i < 1 := by
  unfold randUnit
  constructor
  · positivity
  · rw [div_lt_one (by norm_num)]
    have h : lcgNext^[i + 1] seed < 2 ^ 31 := by
      rw [Function.iterate_succ_apply']
      exact lcgNext_lt _
    exact_mod_cast h

/-! ## Claim theorems -/

/-- Claim C1: in problem assembly, every spectral index (every `ntheta` value
in the convection problem, where `rad(u(r=1))=0` governs modes with
`ntheta != 0` and `p(r=1)=0` governs the mode with `ntheta == 0`) is claimed
by exactly one conditioned equation — never zero, never more than one — and
any gap or overlap in mode coverage raises `AssemblyError`
deterministically. -/
theorem mode_coverage_exactly_one :
    (∀ n : ℕ, countClaiming gaugeSlotConds n = 1) ∧
    assembleModeCoverage gaugeSlotConds nthetaModes = Except.ok () ∧
    (∀ (eqs : List ModeCond) (nmodes : ℕ),
      (∃ n, n < nmodes ∧ countClaiming eqs n ≠ 1) →
      assembleModeCoverage eqs nmodes = Except.error AssemblyError.modeCoverage) := by
  refine ⟨?_, ?_, ?_⟩
  · intro n
    rcases n with _ | m <;>
      simp [countClaiming, gaugeSlotConds, condMatches, List.filter]
  · have hcov : coverageOk gaugeSlotConds nthetaModes = true := by decide
    simp only [assembleModeCoverage, if_pos hcov]
  · rintro eqs nmodes ⟨n, hn, hcnt⟩
    have hcov : ¬ coverageOk eqs nmodes = true := by
      intro hall
      have h := List.all_eq_true.mp hall n (List.mem_range.mpr hn)
      exact hcnt (by simpa using h)
    simp only [assembleModeCoverage, if_neg hcov]

/-- Claim C2: for every pass of the IVP main loop, the step size actually
used satisfies `dt <= max_dt` and `dt <=` the CFL-computed Courant bound up
to the hysteresis threshold (`(1 - threshold) * dt <= safety * min(spacing /
|velocity|)`), and the controller is queried exactly once per pass, before
the step that advances the simulation time by that `dt`. -/
theorem cfl_bound_respected (p : CFLParams) (dt0 : ℚ) (sp : ℕ → ℚ) (n : ℕ)
    (hsafe : 0 < p.safety) (hθ0 : 0 ≤ p.threshold) (hθ1 : p.threshold ≤ 1)
    (hmax : 0 < p.maxDt) (hdt0 : 0 < dt0) (hsp : ∀ m, 0 < sp m) :
    dtUsed p dt0 sp n ≤ p.maxDt ∧
    (1 - p.threshold) * dtUsed p dt0 sp n ≤ cflTarget p (sp n) ∧
    simTimeCFL p dt0 sp (n + 1) = simTimeCFL p dt0 sp n + dtUsed p dt0 sp n := by
  have htarget : ∀ m, 0 ≤ cflTarget p (sp m) :=
    fun m => le_of_lt (mul_pos hsafe (hsp m))
  refine ⟨?_, ?_, rfl⟩
  · cases n with
    | zero => exact min_le_right _ _
    | succ m => exact min_le_right _ _
  · cases n with
    | zero =>
      exact computeTimestep_cfl_bound p dt0 (sp 0) hθ0 hθ1 (le_of_lt hmax) hdt0 (htarget 0)
    | succ m =>
      exact computeTimestep_cfl_bound p _ (sp (m + 1)) hθ0 hθ1 (le_of_lt hmax)
        (dtUsed_pos p dt0 sp hsafe hmax hdt0 hsp m) (htarget (m + 1))

/-- Witness for C2: the script's CFL parameters (`safety=0.35`,
`threshold=0.1`, `max_dt=0.05`), initial `dt=0.05`, unit Courant ratio, loop
pass 3. -/
theorem cfl_bound_respected_witness :
    dtUsed scriptCFL (1 / 20) (fun _ => 1) 3 ≤ scriptCFL.maxDt ∧
    (1 - scriptCFL.threshold) * dtUsed scriptCFL (1 / 20) (fun _ => 1) 3 ≤
      cflTarget scriptCFL 1 ∧
    simTimeCFL scriptCFL (1 / 20) (fun _ => 1) 4 =
      simTimeCFL scriptCFL (1 / 20) (fun _ => 1) 3 + dtUsed scriptCFL (1 / 20) (fun _ => 1) 3 :=
  cfl_bound_respected scriptCFL (1 / 20) (fun _ => 1) 3 (by norm_num [scriptCFL])
    (by norm_num [scriptCFL]) (by norm_num [scriptCFL]) (by norm_num [scriptCFL])
    (by norm_num) (fun _ => by norm_num)

/-- Claim C3: for the internally-heated convection IVP with zero initial
perturbation — `T` set exactly to the conductive equilibrium
`T = S/6 * (1 - r^2)` and `u = 0` — the temperature field remains at that
equilibrium under `solver.step`: the equilibrium solves the steady
temperature equation, it is a fixed point of the SBDF2 time-stepping
relation for every step size, it satisfies the boundary condition
`T(r=1) = 0`, and the momentum equation is balanced by a pressure whose
gradient matches the radial buoyancy and which satisfies the gauge
`p(r=1) = 0`. -/
theorem equilibrium_fixed_point : ∀ dt : ℚ,
    (∃ l, tempL conductiveEquilibrium = some l ∧
      polyEquiv (polyAdd l (tempF [] conductiveEquilibrium)) []) ∧
    sbdf2TempStep dt [] conductiveEquilibrium conductiveEquilibrium conductiveEquilibrium ∧
    polyEval conductiveEquilibrium 1 = 0 ∧
    polyEquiv (polyDeriv equilibriumPressure) (rMulPoly conductiveEquilibrium) ∧
    polyEval equilibriumPressure 1 = 0 := by
  intro dt
  have hF : tempF [] conductiveEquilibrium = [3 / 500] := by
    norm_num [tempF, polyMul, polySmul, polyAdd, tSource, scriptP]
  have hL : tempL conductiveEquilibrium = some [-(3 / 500)] := by
    norm_num [tempL, lapRadial, conductiveEquilibrium, polyDeriv, polyDerivAux, divR,
      polyAdd, polySmul, tSource, scriptP]
  refine ⟨⟨[-(3 / 500)], hL, ?_⟩, ⟨[-(3 / 500)], hL, ?_⟩, ?_, ?_, ?_⟩
  · rw [hF]
    intro i
    rcases i with _ | j <;> norm_num [polyAdd, polyCoeff]
  · rw [hF]
    have hlhs :
        polyAdd (polyAdd (polySmul 3 conductiveEquilibrium)
          (polySmul (-4) conductiveEquilibrium)) conductiveEquilibrium = [0, 0, 0] := by
      norm_num [conductiveEquilibrium, polySmul, polyAdd, tSource]
    have hrhs :
        polyAdd (polyAdd [-(3 / 500 : ℚ)] (polySmul 2 [3 / 500])) (polySmul (-1) [3 / 500]) =
          [0] := by
      norm_num [polySmul, polyAdd]
    rw [hlhs, hrhs]
    intro i
    rcases i with _ | _ | _ | j <;> simp [polySmul, polyCoeff]
  · norm_num [polyEval, conductiveEquilibrium, tSource]
  · have hdp : polyDeriv equilibriumPressure = [0, 1, 0, -1] := by
      norm_num [polyDeriv, polyDerivAux, equilibriumPressure]
    have hrm : rMulPoly conductiveEquilibrium = [0, 1, 0, -1] := by
      norm_num [rMulPoly, conductiveEquilibrium, tSource]
    rw [hdp, hrm]
    intro i
    rfl
  · norm_num [polyEval, equilibriumPressure]

/-- Claim C4: in the 2D Poisson LBVP (`lap(u) + lift(tau1,-1) + lift(tau2,-2)
= f` with `u(y=0) = g` and `dy(u)(y=Ly) = h`), if `f = 0`, `g = 0` and
`h = 0` then the solve returns `u = 0` everywhere: the zero state solves the
per-mode tau system of every Fourier mode, and it is the only solution, so
the solved coefficients (and both tau unknowns) all vanish. -/
theorem lbvp_zero_data_zero_solution : ∀ (k : ℚ) (s : PoissonModeSol),
    poissonModeEqs k poissonZeroSol 0 0 0 0 0 0 ∧
    (poissonModeEqs k s 0 0 0 0 0 0 →
      s.u0 = 0 ∧ s.u1 = 0 ∧ s.u2 = 0 ∧ s.u3 = 0 ∧ s.tau1 = 0 ∧ s.tau2 = 0) := by
  intro k s
  constructor
  · norm_num [poissonModeEqs, poissonZeroSol]
  · rintro ⟨e0, e1, e2, e3, e4, e5⟩
    have hu0 : s.u0 = 0 := e4
    have hu2 : s.u2 = 0 := by linear_combination e0 / 2 + (k ^ 2 / 2) * e4
    have ht2 : s.tau2 = 0 := by linear_combination e2 + k ^ 2 * hu2
    have h63 : (6 + 3 * k ^ 2) * s.u3 = 0 := by
      linear_combination e1 + k ^ 2 * e5 - 2 * k ^ 2 * hu2
    have hk : (0 : ℚ) < 6 + 3 * k ^ 2 := by positivity
    have hu3 : s.u3 = 0 := by
      rcases mul_eq_zero.mp h63 with h | h
      · exact absurd h (ne_of_gt hk)
      · exact h
    have hu1 : s.u1 = 0 := by linear_combination e5 - 2 * hu2 - 3 * hu3
    have ht1 : s.tau1 = 0 := by linear_combination e3 + k ^ 2 * hu3
    exact ⟨hu0, hu1, hu2, hu3, ht1, ht2⟩

/-- Claim C5: for every basis and every valid coefficient vector the grid and
coefficient transforms are mutually inverse, `to_coeff(to_grid(c)) = c` —
for every polynomial-quadrature basis (the Chebyshev/Jacobi/radial families)
with any distinct nodes, any mode count `n` and any dealiased grid of
`m >= n` points (truncation included), and for the trigonometric (real
Fourier) basis on its uniform grid. -/
theorem transform_round_trip (n m : ℕ) (nodes : Fin m → ℚ) (c : List ℚ)
    (hinj : Function.Injective nodes) (hnm : n ≤ m) (hc : c.length = n) :
    polyBasisToCoeff n m nodes (polyBasisToGrid m nodes c) = c ∧
    (∀ d : Fin 4 → ℚ, fourierToCoeff (fourierToGrid d) = d) := by
  constructor
  · have hco := interpPoly_round_trip n m nodes c hinj hnm hc
    apply List.ext_getElem
    · simp [polyBasisToCoeff, hc]
    · intro i h1 h2
      simp only [polyBasisToCoeff, List.getElem_map, List.getElem_range]
      rw [hco i, polyCoeff]
      exact List.getD_eq_getElem c 0 h2
  · intro d
    funext j
    fin_cases j <;>
      simp [fourierToCoeff, fourierToGrid, fourierCosVals, fourierSinVals, fourierCos2Vals,
        Fin.sum_univ_four] <;>
      ring

/-- Witness for C5: a three-node quadrature grid with two retained modes
(dealiased grid larger than the mode count) and the coefficient vector
`[5, 7]`. -/
theorem transform_round_trip_witness :
    polyBasisToCoeff 2 3 ![0, 1, 2] (polyBasisToGrid 3 ![0, 1, 2] [5, 7]) = [5, 7] ∧
    (∀ d : Fin 4 → ℚ, fourierToCoeff (fourierToGrid d) = d) :=
  transform_round_trip 2 3 ![0, 1, 2] [5, 7] (by decide) (by norm_num) rfl

/-- Claim C6: in the convection main loop, conjugate (hermitian) symmetry is
forced on the solver state fields at exactly those iterations `i` with
`i % 100` in `{0, 1}` — two consecutive iterations every
`hermitian_cadence = 100` iterations, covering both sub-stages of the
two-stage SBDF2 timestepper — and at no other iteration. -/
theorem hermitian_symmetry_cadence : ∀ i : ℕ,
    (hermitianImposed i = true ↔ i % hermitianCadence = 0 ∨ i % hermitianCadence = 1) ∧
    hermitianImposed (hermitianCadence * (i + 1)) = true ∧
    hermitianImposed (hermitianCadence * (i + 1) + 1) = true := by
  intro i
  refine ⟨?_, ?_, ?_⟩
  · simp [hermitianImposed]
  · simp only [hermitianImposed, hermitianCadence]
    have h : 100 * (i + 1) % 100 = 0 := by omega
    simp [h]
  · simp only [hermitianImposed, hermitianCadence]
    have h : (100 * (i + 1) + 1) % 100 = 1 := by omega
    simp [h]

/-- Counterexample to Claim C7 as stated: positivity of every accepted step
size alone does not force the loop to terminate — along the step-size
sequence `dt_n = (1/2)^(n+1)` (all positive) the simulated time never
reaches `stop_sim_time = 10.01`, so the claimed implication is false. -/
theorem step_positivity_insufficient :
    ¬ (∀ dts : ℕ → ℚ, (∀ n, 0 < dts n) → ∃ N, stopSimTime ≤ simTimeAfter dts N) := by
  intro h
  obtain ⟨N, hN⟩ := h (fun n => (1 / 2 : ℚ) ^ (n + 1)) (fun n => by positivity)
  rw [simTimeAfter_zeno] at hN
  have hpow : (0 : ℚ) < (1 / 2 : ℚ) ^ N := by positivity
  have hstop : stopSimTime = 1001 / 100 := rfl
  rw [hstop] at hN
  linarith

/-- Claim C7 (amended): each call of `solver.step(dt)` advances `sim_time` by
exactly `dt` and the iteration counter by exactly one, and — provided the
accepted step sizes are bounded below by some positive `delta`, not merely
positive — after finitely many steps `sim_time` reaches `stop_sim_time` and
the continue signal becomes false. -/
theorem step_advance_and_termination (dts : ℕ → ℚ) (delta stop : ℚ)
    (hdelta : 0 < delta) (hlb : ∀ n, delta ≤ dts n) :
    (∀ n, simTimeAfter dts (n + 1) = simTimeAfter dts n + dts n) ∧
    (∀ n, iterationAfter (n + 1) = iterationAfter n + 1) ∧
    (∃ N, ¬ proceedSignal dts stop N) := by
  refine ⟨fun n => rfl, fun n => rfl, ?_⟩
  have key : ∀ n : ℕ, (n : ℚ) * delta ≤ simTimeAfter dts n := by
    intro n
    induction n with
    | zero => simp [simTimeAfter]
    | succ m ih =>
      have hm := hlb m
      have hstep : simTimeAfter dts (m + 1) = simTimeAfter dts m + dts m := rfl
      rw [hstep]
      push_cast
      nlinarith
  obtain ⟨N, hN⟩ := exists_nat_ge (stop / delta)
  refine ⟨N, ?_⟩
  simp only [proceedSignal, not_lt]
  have h1 : stop ≤ (N : ℚ) * delta := by
    rw [div_le_iff₀ hdelta] at hN
    linarith
  exact le_trans h1 (key N)

/-- Witness for C7 (amended): the constant step-size sequence at the
script's initial `dt = 0.05`, bounded below by itself, reaches the script's
`stop_sim_time`. -/
theorem step_advance_and_termination_witness :
    (∀ n, simTimeAfter (fun _ => (1 / 20 : ℚ)) (n + 1) =
      simTimeAfter (fun _ => (1 / 20 : ℚ)) n + (1 / 20 : ℚ)) ∧
    (∀ n, iterationAfter (n + 1) = iterationAfter n + 1) ∧
    (∃ N, ¬ proceedSignal (fun _ => (1 / 20 : ℚ)) stopSimTime N) :=
  step_advance_and_termination (fun _ => (1 / 20 : ℚ)) (1 / 20) stopSimTime (by norm_num)
    (fun _ => le_refl _)

/-- Claim C9: the buoyancy coefficient field `r_vec` has only its radial
component (tensor index 2) set to the radius values; its `phi` and `theta`
components (indices 0 and 1) are zero, so the buoyancy term `r_vec*T` of the
momentum equation is purely radial for every temperature field. -/
theorem buoyancy_purely_radial : ∀ (P : Type) (rgrid T : P → ℚ) (x : P),
    rVecField P rgrid 0 x = 0 ∧ rVecField P rgrid 1 x = 0 ∧
    rVecField P rgrid 2 x = rgrid x ∧
    buoyancy (rVecField P rgrid) T 0 x = 0 ∧
    buoyancy (rVecField P rgrid) T 1 x = 0 ∧
    buoyancy (rVecField P rgrid) T 2 x = rgrid x * T x := by
  intro P rgrid T x
  refine ⟨?_, ?_, ?_, ?_, ?_, ?_⟩ <;>
    simp [rVecField, setComponent, zeroVectorField, buoyancy]

/-- Claim C10: restart mode is enabled iff the script receives at least one
command-line argument and the first argument is exactly `--restart`; in
restart mode the stop time is 20 and the state — write number and `dt` — is
the one loaded from the checkpoint, while in non-restart mode the stop time
is 10.01, `dt` is initialized to 0.05, no checkpoint write number is loaded,
and every grid value of the initial temperature lies in
`[1 - r^2, 1 - r^2 + 0.5)`. -/
theorem restart_mode_dichotomy :
    (∀ argv : List String,
      restartFlag argv = true ↔ 1 < argv.length ∧ argv.getD 1 "" = "--restart") ∧
    tEnd true = 20 ∧ tEnd false = 1001 / 100 ∧ dtInitNoRestart = 1 / 20 ∧
    (∀ (argv : List String) (chk : Checkpoint),
      (scriptConfig argv chk).restart = restartFlag argv ∧
      (restartFlag argv = true →
        scriptConfig argv chk = ⟨true, 20, chk.dtStored, some chk.writeNum⟩) ∧
      (restartFlag argv = false →
        scriptConfig argv chk = ⟨false, 1001 / 100, 1 / 20, none⟩)) ∧
    (∀ (rank : ℕ) (rgrid : ℕ → ℚ) (i : ℕ),
      1 - rgrid i ^ 2 ≤ initialTemp rank rgrid i ∧
      initialTemp rank rgrid i < 1 - rgrid i ^ 2 + 1 / 2) := by
  refine ⟨?_, rfl, rfl, rfl, ?_, ?_⟩
  · intro argv
    rcases argv with _ | ⟨a, _ | ⟨b, t⟩⟩
    · simp [restartFlag]
    · simp [restartFlag]
    · have hlen : 1 < (a :: b :: t).length := by
        simp [List.length]
      simp [restartFlag, List.getD, hlen]
  · intro argv chk
    by_cases h : restartFlag argv <;>
      simp [scriptConfig, h, tEnd, loadState, dtInitNoRestart]
  · intro rank rgrid i
    obtain ⟨h0, h1⟩ := randUnit_mem (seedOf rank) i
    unfold initialTemp
    constructor
    · linarith
    · linarith

end Spec2Proof
